import Mathlib

/-!
Shallow embedding of the metadata deduplication engine of the
`index_explorer` repository (`src/services/deduplicationService.ts`,
deletion entry point in the deduplication controller), together with
theorems settling the specification claims about it.

Modelling conventions:
* JavaScript numbers are modelled as `ℚ` (no NaN/Infinity; `Math.round x`
  is `⌊x + 1/2⌋`, which matches `Math.round`'s round-half-up behaviour).
* JavaScript attribute values are a tagged union `Value`; a structured
  object is represented by its canonical JSON serialization (the source
  only ever compares objects via `JSON.stringify`).
* An attribute map (`RecordMetadata`) is an ordered association list; the
  source's `JSON.stringify(m1) === JSON.stringify(m2)` test corresponds to
  plain equality of association lists (canonical serialization is
  injective on the modelled values and preserves key order).
* `new Date(v).getTime()` is modelled by an explicit parameter
  `jsDate : Value → Option Int`, where `none` stands for `NaN`
  (an unparseable date).  Theorems quantify over `jsDate`.
* The Pinecone store's `deleteMany` is modelled by an oracle
  `store : List String → StoreOutcome`; its call sites are additionally
  logged so that "performs no store deletions" is expressible.
* Wall-clock values (`Date.now()`, `new Date().toISOString()`) are not
  modelled; the audit `timestamp` field is the empty string and
  `processingTime` is omitted from the analysis structure.
-/

/-- A JavaScript attribute value: `null | boolean | number | string |
structured object`.  A structured object is carried as its canonical
serialization string. -/
inductive Value where
  | vNull : Value
  | vBool : Bool → Value
  | vNum : ℚ → Value
  | vStr : String → Value
  | vObj : String → Value
deriving DecidableEq, Repr

/-- An attribute map: ordered list of key/value pairs (JS object key order). -/
abbrev Metadata := List (String × Value)

/-- Lookup of `m[key]`; `none` models JS `undefined` (key absent). -/
def mlookup : Metadata → String → Option Value
  | [], _ => none
  | (k, v) :: rest, key => if k = key then some v else mlookup rest key

/-- JavaScript truthiness of a value (`NaN` is excluded from the model). -/
def truthy : Value → Bool
  | .vNull => false
  | .vBool b => b
  | .vNum q => q ≠ 0
  | .vStr s => s ≠ ""
  | .vObj _ => true

/-- Truthiness of a possibly-absent value (`undefined` is falsy). -/
def truthyO : Option Value → Bool
  | some v => truthy v
  | none => false

/-- JS `a || b` on possibly-absent values: the first operand if truthy,
otherwise the second operand's value. -/
def orTruthy (a b : Option Value) : Option Value :=
  match a with
  | some v => if truthy v then some v else b
  | none => b

/-- `Math.round`: round half towards positive infinity. -/
def jsRound (q : ℚ) : ℤ := ⌊q + 1/2⌋

/-- `Math.round(x * 100) / 100`: round to two decimals. -/
def round2 (q : ℚ) : ℚ := (jsRound (q * 100) : ℚ) / 100

/-- `levenshteinDistance` (the source fills a DP matrix with
`matrix[j][i] = min(matrix[j][i-1]+1, matrix[j-1][i]+1, matrix[j-1][i-1]+ind)`
and borders `matrix[0][i]=i`, `matrix[j][0]=j`; this is the same recurrence
written as a recursion on the two character lists). -/
def levenshteinDistance : List Char → List Char → Nat
  | [], t => t.length
  | s, [] => s.length
  | a :: s, b :: t =>
    let indicator : Nat := if a = b then 0 else 1
    min (min (levenshteinDistance (a :: s) t + 1) (levenshteinDistance s (b :: t) + 1))
      (levenshteinDistance s t + indicator)

/-- JS `s.includes(sub)` for a nonempty pattern. -/
def containsSub (s sub : String) : Bool := (s.splitOn sub).length ≥ 2

/-- JS `s.split(sep)[0]`. -/
def headSplit (s sep : String) : String := (s.splitOn sep).headD s

/-- `calculateStringSimilarity`: normalized Levenshtein similarity. -/
def calculateStringSimilarity (str1 str2 : String) : ℚ :=
  let longer := if str1.length > str2.length then str1 else str2
  if longer.length = 0 then 100
  else
    let distance := levenshteinDistance str1.data str2.data
    (jsRound ((((longer.length : ℚ) - (distance : ℚ)) / (longer.length : ℚ)) * 100) : ℚ)

/-- `compareStrings`: smart string comparison with field-specific logic.
`jsDate` models `new Date(str).getTime()` (`none` = `NaN`); the source's
date branch compares the two parsed instants with `===`, so two `NaN`s do
not match and fall through. -/
def compareStrings (jsDate : Value → Option Int) (str1 str2 fieldName : String) : ℚ :=
  if str1 = str2 then 100
  else
    let fl := fieldName.toLower
    if (containsSub fl "url" || containsSub fl "link")
        && headSplit str1 "?" = headSplit str2 "?" then 95
    else if (containsSub fl "file" || containsSub fl "name")
        && headSplit str1 "." = headSplit str2 "." then 90
    else if (containsSub fl "date" || containsSub fl "time")
        && (match jsDate (.vStr str1), jsDate (.vStr str2) with
            | some d1, some d2 => d1 = d2
            | _, _ => false) then 100
    else calculateStringSimilarity str1 str2

/-- `compareNumbers`: equal → 100, else `max(0, 100 - 100*|a-b|/((a+b)/2))`
with a zero average mapped to 0 for distinct values. -/
def compareNumbers (num1 num2 : ℚ) : ℚ :=
  if num1 = num2 then 100
  else
    let diff := |num1 - num2|
    let avg := (num1 + num2) / 2
    if avg = 0 then (if diff = 0 then 100 else 0)
    else
      let percentDiff := (diff / avg) * 100
      max 0 (100 - percentDiff)

/-- `compareObjects`: 100 iff the canonical serializations coincide. -/
def compareObjects (obj1 obj2 : String) : ℚ := if obj1 = obj2 then 100 else 0

/-- `compareFieldValues`: dispatch on the (JS) types of the two values.
The first test models `value1 === value2` (for structured objects JS
reference equality would instead fall through to `compareObjects`, which
returns the same 100 on structurally equal objects); the second models
`value1 == null` (catching both `null` and `undefined`). -/
def compareFieldValues (jsDate : Value → Option Int)
    (v1 v2 : Option Value) (fieldName : String) : ℚ :=
  if v1 = v2 then 100
  else if v1 = none ∨ v2 = none ∨ v1 = some .vNull ∨ v2 = some .vNull then 0
  else
    match v1, v2 with
    | some (.vStr s1), some (.vStr s2) => compareStrings jsDate s1 s2 fieldName
    | some (.vNum n1), some (.vNum n2) => compareNumbers n1 n2
    | some (.vObj o1), some (.vObj o2) => compareObjects o1 o2
    | _, _ => 0

/-- `generateSimilarityReason`. -/
def generateSimilarityReason (score : ℚ) (matchingFields : List String) : String :=
  if score ≥ 95 then "Near-exact match on " ++ toString matchingFields.length ++ " fields"
  else if score ≥ 85 then
    "High similarity on fields: " ++ String.intercalate ", " (matchingFields.take 3)
  else if score ≥ 70 then
    "Moderate similarity on " ++ toString matchingFields.length ++ " fields"
  else "Low similarity detected"

inductive SimilarityMode where
  | exact | fuzzy | custom
deriving DecidableEq, Repr

inductive Strategy where
  | keepFirst | keepNewest | manual
deriving DecidableEq, Repr

inductive RecommendedAction where
  | keepFirst | keepNewest | manualReview
deriving DecidableEq, Repr

structure DeduplicationOptions where
  similarity : SimilarityMode
  threshold : Option ℚ := none
  includeKeys : Option (List String) := none
  excludeKeys : Option (List String) := none
  maxDocuments : Option Nat := none
  strategy : Strategy
deriving DecidableEq, Repr

structure SimilarityResult where
  score : ℚ
  reason : String
  matchingFields : List String
deriving DecidableEq, Repr

/-- First-occurrence deduplication, the insertion order of
`new Set([...keys1, ...keys2])`. -/
def dedupFirst (seen : List String) : List String → List String
  | [] => []
  | k :: ks => if k ∈ seen then dedupFirst seen ks else k :: dedupFirst (k :: seen) ks

/-- The keys the scorer compares: union of both key sets in first-occurrence
order, filtered by `includeKeys` / `excludeKeys` (an `includeKeys` that is
present but empty filters everything out, as in the source). -/
def keysToCompare (m1 m2 : Metadata) (o : DeduplicationOptions) : List String :=
  (dedupFirst [] (m1.map Prod.fst ++ m2.map Prod.fst)).filter fun k =>
    (match o.includeKeys with
     | some inc => decide (k ∈ inc)
     | none => true)
    && (match o.excludeKeys with
        | some exc => decide (k ∉ exc)
        | none => true)

/-- `calculateMetadataSimilarity`: the Record Similarity Scorer. -/
def calculateMetadataSimilarity (jsDate : Value → Option Int)
    (metadata1 metadata2 : Metadata) (o : DeduplicationOptions) : SimilarityResult :=
  if metadata1 = metadata2 then
    ⟨100, "Exact metadata match", metadata1.map Prod.fst⟩
  else if o.similarity = SimilarityMode.exact then ⟨0, "No exact match", []⟩
  else
    let keys := keysToCompare metadata1 metadata2 o
    if keys = [] then ⟨0, "No comparable fields", []⟩
    else
      let fieldScore := fun k =>
        compareFieldValues jsDate (mlookup metadata1 k) (mlookup metadata2 k) k
      let totalScore := (keys.map fieldScore).sum
      let matchingFields := keys.filter fun k => fieldScore k > 80
      let averageScore := totalScore / (keys.length : ℚ)
      ⟨round2 averageScore, generateSimilarityReason averageScore matchingFields,
        matchingFields⟩

/-- An input record: opaque id plus attribute map. -/
structure Document where
  id : String
  metadata : Metadata
deriving DecidableEq, Repr

/-- A member of an emitted duplicate group (the source copies the record and
adds `lastModified := metadata.lastModified || metadata.timestamp`). -/
structure GroupDoc where
  id : String
  metadata : Metadata
  lastModified : Option Value
deriving DecidableEq, Repr

structure DuplicateGroup where
  id : String
  similarityScore : ℚ
  documents : List GroupDoc
  recommendedAction : RecommendedAction
  reason : String
  matchingFields : List String
deriving DecidableEq, Repr

/-- `options.threshold || 85`: an absent (or zero, since `0` is falsy)
threshold defaults to 85. -/
def effectiveThreshold (o : DeduplicationOptions) : ℚ :=
  match o.threshold with
  | some t => if t = 0 then 85 else t
  | none => 85

/-- `determineRecommendedAction`. -/
def determineRecommendedAction (documents : List Document) (strategy : Strategy) :
    RecommendedAction :=
  match strategy with
  | .manual => .manualReview
  | .keepFirst => .keepFirst
  | .keepNewest =>
    if documents.any (fun d =>
        truthyO (mlookup d.metadata "lastModified")
        || truthyO (mlookup d.metadata "timestamp")
        || truthyO (mlookup d.metadata "created")) then
      .keepNewest
    else .keepFirst

def toGroupDoc (d : Document) : GroupDoc :=
  ⟨d.id, d.metadata,
    orTruthy (mlookup d.metadata "lastModified") (mlookup d.metadata "timestamp")⟩

/-- The inner loop of `identifyDuplicateGroups`: scan the records after the
anchor, collect every unprocessed record scoring at least the threshold
against the anchor, and mark it processed. -/
def innerScan (jsDate : Value → Option Int) (o : DeduplicationOptions)
    (anchor : Document) : List Document → List String → List Document × List String
  | [], processed => ([], processed)
  | d :: ds, processed =>
    if d.id ∈ processed then innerScan jsDate o anchor ds processed
    else if (calculateMetadataSimilarity jsDate anchor.metadata d.metadata o).score
        ≥ effectiveThreshold o then
      let r := innerScan jsDate o anchor ds (d.id :: processed)
      (d :: r.1, r.2)
    else innerScan jsDate o anchor ds processed

/-- Build one emitted group: `similarityScore`/`reason`/`matchingFields`
are recomputed between the first two members. -/
def mkGroup (jsDate : Value → Option Int) (o : DeduplicationOptions) (n : Nat)
    (first second : Document) (candidate : List Document) : DuplicateGroup :=
  let sim := calculateMetadataSimilarity jsDate first.metadata second.metadata o
  { id := "group-" ++ toString (n + 1)
    similarityScore := sim.score
    documents := candidate.map toGroupDoc
    recommendedAction := determineRecommendedAction candidate o.strategy
    reason := sim.reason
    matchingFields := sim.matchingFields }

/-- The outer loop of `identifyDuplicateGroups`: each unprocessed record in
input order anchors a candidate group; a group is emitted only when the
candidate has at least two members. -/
def outerLoop (jsDate : Value → Option Int) (o : DeduplicationOptions) :
    List Document → List String → Nat → List DuplicateGroup
  | [], _, _ => []
  | d :: ds, processed, n =>
    if d.id ∈ processed then outerLoop jsDate o ds processed n
    else
      let r := innerScan jsDate o d ds (d.id :: processed)
      match r.1 with
      | [] => outerLoop jsDate o ds r.2 n
      | m :: _ => mkGroup jsDate o n d m (d :: r.1) :: outerLoop jsDate o ds r.2 (n + 1)

/-- `groups.sort((a, b) => b.similarityScore - a.similarityScore)`:
stable sort by similarity score, highest first. -/
def sortGroups (groups : List DuplicateGroup) : List DuplicateGroup :=
  groups.mergeSort fun a b => decide (b.similarityScore ≤ a.similarityScore)

/-- `identifyDuplicateGroups`: the Duplicate Clustering Engine. -/
def identifyDuplicateGroups (jsDate : Value → Option Int)
    (documents : List Document) (o : DeduplicationOptions) : List DuplicateGroup :=
  sortGroups (outerLoop jsDate o documents [] 0)

structure PotentialSavings where
  documentsToDelete : Nat
  estimatedStorageSaved : String
deriving DecidableEq, Repr

structure AnalysisMetrics where
  exactMatches : Nat
  fuzzyMatches : Nat
  uniqueDocuments : Nat
deriving DecidableEq, Repr

structure DuplicationAnalysis where
  totalDocuments : Nat
  duplicateGroups : List DuplicateGroup
  potentialSavings : PotentialSavings
  analysisMetrics : AnalysisMetrics
deriving DecidableEq, Repr

/-- `estimateStorageSavings`. -/
def estimateStorageSavings (documentsToDelete : Nat) : String :=
  let totalSizeKB := documentsToDelete * 2
  if totalSizeKB < 1024 then "~" ++ toString totalSizeKB ++ " KB"
  else if totalSizeKB < 1024 * 1024 then
    "~" ++ toString (jsRound ((totalSizeKB : ℚ) / 1024)) ++ " MB"
  else "~" ++ toString (jsRound ((totalSizeKB : ℚ) / (1024 * 1024))) ++ " GB"

/-- `findMetadataDuplicates`, after the store fetch (the fetched batch is
the `documents` argument): an empty batch throws, otherwise the analysis is
assembled from the clustering output. -/
def findMetadataDuplicates (jsDate : Value → Option Int)
    (documents : List Document) (o : DeduplicationOptions) :
    Except String DuplicationAnalysis :=
  if documents = [] then .error "No documents found in namespace"
  else
    let duplicateGroups := identifyDuplicateGroups jsDate documents o
    let exactMatches := (duplicateGroups.filter fun g => g.similarityScore ≥ 999/10).length
    let fuzzyMatches := (duplicateGroups.filter fun g => g.similarityScore < 999/10).length
    let documentsInGroups := duplicateGroups.foldl (fun s g => s + g.documents.length) 0
    let documentsToDelete :=
      duplicateGroups.foldl (fun s g => s + (g.documents.length - 1)) 0
    .ok
      { totalDocuments := documents.length
        duplicateGroups := duplicateGroups
        potentialSavings :=
          ⟨documentsToDelete, estimateStorageSavings documentsToDelete⟩
        analysisMetrics :=
          ⟨exactMatches, fuzzyMatches, documents.length - documentsInGroups⟩ }

structure AuditEntry where
  groupId : String
  deletedIds : List String
  keptId : String
  reason : String
  timestamp : String
deriving DecidableEq, Repr

structure DeletionResult where
  success : Bool
  deletedGroups : Nat
  deletedDocuments : Nat
  errors : List String
  auditTrail : List AuditEntry
deriving DecidableEq, Repr

/-- Outcome of one `pineconeService.deleteMany` call: a returned
`{success: true}`, a returned `{success: false}`, or a thrown error
carrying `error.message`. -/
inductive StoreOutcome where
  | ok : StoreOutcome
  | fail : StoreOutcome
  | thrown : String → StoreOutcome
deriving DecidableEq, Repr

structure Selection where
  toKeep : String
  toDelete : List String
deriving DecidableEq, Repr

/-- Whether a value is a JS string or number. -/
def isStrOrNum : Value → Bool
  | .vStr _ => true
  | .vNum _ => true
  | _ => false

/-- The timestamp value considered by the keep-newest scan:
`metadata.lastModified || metadata.timestamp || metadata.created`,
kept only when it is truthy and a string or a number. -/
def consideredTs (m : Metadata) : Option Value :=
  match orTruthy (mlookup m "lastModified")
      (orTruthy (mlookup m "timestamp") (mlookup m "created")) with
  | some v => if truthy v && isStrOrNum v then some v else none
  | none => none

/-- The parsed timestamp of one member inside the keep-newest loop:
`new Date(metadata.lastModified || metadata.timestamp || metadata.created).getTime()`
guarded by the truthiness/type check, `none` meaning no update happens. -/
def docTime (jsDate : Value → Option Int) (d : GroupDoc) : Option Int :=
  (consideredTs d.metadata).bind jsDate

/-- The keep-newest loop of `selectDocumentsForDeletion`: running maximum
`newestTime` (initialised to 0) and its index `keepIndex`; an unparseable
timestamp (`NaN`, i.e. `jsDate = none`) never beats the running maximum. -/
def newestScan (jsDate : Value → Option Int) :
    List GroupDoc → Nat → Int → Nat → Int × Nat
  | [], _, best, keep => (best, keep)
  | d :: ds, idx, best, keep =>
    match docTime jsDate d with
    | some t =>
      if best < t then newestScan jsDate ds (idx + 1) t idx
      else newestScan jsDate ds (idx + 1) best keep
    | none => newestScan jsDate ds (idx + 1) best keep

/-- `selectDocumentsForDeletion`.  On an empty member list the source
throws (`group.documents[0].id` on an empty array), modelled as `none`. -/
def selectDocumentsForDeletion (jsDate : Value → Option Int)
    (group : DuplicateGroup) : Option Selection :=
  match group.documents with
  | [] => none
  | d :: ds =>
    if ds.isEmpty then some ⟨d.id, []⟩
    else
      let keepIndex :=
        match group.recommendedAction with
        | .keepNewest => (newestScan jsDate (d :: ds) 0 0 0).2
        | _ => 0
      some ⟨((d :: ds).getD keepIndex d).id,
        ((d :: ds).enum.filter fun p => p.1 ≠ keepIndex).map fun p => p.2.id⟩

/-- The message of the TypeError thrown by `group.documents[0].id` on an
empty member array. -/
def emptyGroupMsg : String := "Cannot read properties of undefined (reading 'id')"

/-- One iteration of the `deleteDuplicates` loop: the optional audit entry,
the error strings, the deleted-document count, and the store calls made. -/
def processGroup (store : List String → StoreOutcome) (jsDate : Value → Option Int)
    (g : DuplicateGroup) : Option AuditEntry × List String × Nat × List (List String) :=
  match selectDocumentsForDeletion jsDate g with
  | none => (none, ["Error processing group " ++ g.id ++ ": " ++ emptyGroupMsg], 0, [])
  | some sel =>
    if sel.toDelete.isEmpty then (none, [], 0, [])
    else
      match store sel.toDelete with
      | .ok =>
        (some ⟨g.id, sel.toDelete, sel.toKeep, g.reason, ""⟩, [], sel.toDelete.length,
          [sel.toDelete])
      | .fail =>
        (none, ["Failed to delete group " ++ g.id ++ ": Delete operation failed"], 0,
          [sel.toDelete])
      | .thrown msg =>
        (none, ["Error processing group " ++ g.id ++ ": " ++ msg], 0, [sel.toDelete])

/-- The `for (const group of duplicateGroups)` loop, accumulating audit
trail, errors, deleted count and store calls in order. -/
def deleteLoop (store : List String → StoreOutcome) (jsDate : Value → Option Int) :
    List DuplicateGroup → List AuditEntry × List String × Nat × List (List String)
  | [] => ([], [], 0, [])
  | g :: gs =>
    let p := processGroup store jsDate g
    let r := deleteLoop store jsDate gs
    (p.1.toList ++ r.1, p.2.1 ++ r.2.1, p.2.2.1 + r.2.2.1, p.2.2.2 ++ r.2.2.2)

/-- `deleteDuplicates` (the Deletion Executor), also returning the list of
id batches passed to the store. -/
def deleteDuplicates (store : List String → StoreOutcome) (jsDate : Value → Option Int)
    (groups : List DuplicateGroup) : DeletionResult × List (List String) :=
  let r := deleteLoop store jsDate groups
  ({ success := r.2.1.isEmpty
     deletedGroups := r.1.length
     deletedDocuments := r.2.2.1
     errors := r.2.1
     auditTrail := r.1 }, r.2.2.2)

/-- The deletion entry point (`deleteDuplicates` in the deduplication
controller), with its HTTP error responses mapped to error
`DeletionResult`s as in the spec's `resolveAndDelete` signature: refuse
without explicit confirmation, refuse an empty group list, refuse a group
with a falsy id, then run the executor. -/
def resolveAndDelete (store : List String → StoreOutcome) (jsDate : Value → Option Int)
    (groups : List DuplicateGroup) (confirmDeletion : Bool) :
    DeletionResult × List (List String) :=
  if !confirmDeletion then
    ({ success := false, deletedGroups := 0, deletedDocuments := 0
       errors := ["Deletion confirmation required"], auditTrail := [] }, [])
  else if groups.isEmpty then
    ({ success := false, deletedGroups := 0, deletedDocuments := 0
       errors := ["Invalid duplicate groups data"], auditTrail := [] }, [])
  else if groups.any fun g => g.id = "" then
    ({ success := false, deletedGroups := 0, deletedDocuments := 0
       errors := ["Invalid duplicate group structure"], auditTrail := [] }, [])
  else deleteDuplicates store jsDate groups

lemma processGroup_count (store : List String → StoreOutcome)
    (jsDate : Value → Option Int) (g : DuplicateGroup) :
    (processGroup store jsDate g).2.2.1
      = (((processGroup store jsDate g).1.toList).map fun e => e.deletedIds.length).sum := by
  unfold processGroup
  cases selectDocumentsForDeletion jsDate g with
  | none => simp
  | some sel =>
    by_cases h : sel.toDelete.isEmpty
    · simp [h]
    · cases hs : store sel.toDelete <;> simp [h, hs]

lemma deleteLoop_count (store : List String → StoreOutcome)
    (jsDate : Value → Option Int) (groups : List DuplicateGroup) :
    (deleteLoop store jsDate groups).2.2.1
      = (((deleteLoop store jsDate groups).1).map fun e => e.deletedIds.length).sum := by
  induction groups with
  | nil => simp [deleteLoop]
  | cons g gs ih =>
    simp only [deleteLoop, List.map_append, List.sum_append]
    rw [ih, processGroup_count store jsDate g]

/-- Claim C1: invoking the deletion entry point with the explicit
confirmation flag set to false performs no store deletions and returns an
error result whose audit trail is empty and whose deleted-document count
is zero. -/
theorem resolveAndDelete_no_confirmation (store : List String → StoreOutcome)
    (jsDate : Value → Option Int) (groups : List DuplicateGroup) :
    (resolveAndDelete store jsDate groups false).1.success = false
    ∧ (resolveAndDelete store jsDate groups false).1.auditTrail = []
    ∧ (resolveAndDelete store jsDate groups false).1.deletedDocuments = 0
    ∧ (resolveAndDelete store jsDate groups false).2 = [] :=
  ⟨rfl, rfl, rfl, rfl⟩

/-- Claim C10: the Deletion Executor's result is internally consistent:
`deletedGroups` is the number of audit entries and `deletedDocuments` is
the sum of the lengths of the audit entries' `deletedIds`. -/
theorem deleteDuplicates_result_consistent (store : List String → StoreOutcome)
    (jsDate : Value → Option Int) (groups : List DuplicateGroup) :
    (deleteDuplicates store jsDate groups).1.deletedGroups
      = (deleteDuplicates store jsDate groups).1.auditTrail.length
    ∧ (deleteDuplicates store jsDate groups).1.deletedDocuments
      = ((deleteDuplicates store jsDate groups).1.auditTrail.map
          fun e => e.deletedIds.length).sum :=
  ⟨rfl, deleteLoop_count store jsDate groups⟩

/-- Claim C5 (amended): `compareNumbers` returns 100 iff the two numbers
are exactly equal.  For distinct numbers the result is governed by the
average `(a+b)/2`: a zero average gives 0; a positive average gives a
value in `[0,100)` that is 0 exactly when `|a-b|` is at least the average;
a negative average gives a value strictly above 100. -/
theorem compareNumbers_characterization (a b : ℚ) :
    (compareNumbers a b = 100 ↔ a = b)
    ∧ (a ≠ b → (a + b) / 2 = 0 → compareNumbers a b = 0)
    ∧ (a ≠ b → 0 < (a + b) / 2 →
        0 ≤ compareNumbers a b ∧ compareNumbers a b < 100
        ∧ (compareNumbers a b = 0 ↔ (a + b) / 2 ≤ |a - b|))
    ∧ (a ≠ b → (a + b) / 2 < 0 → 100 < compareNumbers a b) := by
  by_cases hab : a = b
  · subst hab
    refine ⟨by simp [compareNumbers], fun h => absurd rfl h, fun h => absurd rfl h,
      fun h => absurd rfl h⟩
  · have hd : (0 : ℚ) < |a - b| := abs_pos.mpr (sub_ne_zero.mpr hab)
    have key : ∀ (havg : (a + b) / 2 ≠ 0),
        compareNumbers a b = max 0 (100 - (|a - b| / ((a + b) / 2)) * 100) := by
      intro havg
      simp only [compareNumbers, if_neg hab, if_neg havg]
    rcases lt_trichotomy ((a + b) / 2) 0 with hneg | hzero | hpos
    · have hres : 100 < compareNumbers a b := by
        rw [key (ne_of_lt hneg)]
        have hpd : (|a - b| / ((a + b) / 2)) * 100 < 0 := by
          have := div_neg_of_pos_of_neg hd hneg
          nlinarith
        exact lt_max_iff.mpr (Or.inr (by linarith))
      refine ⟨⟨fun h => absurd h (by linarith), fun h => absurd h hab⟩,
        fun _ h => absurd h (ne_of_lt hneg), fun _ h => absurd h (by linarith),
        fun _ _ => hres⟩
    · have hres : compareNumbers a b = 0 := by
        simp only [compareNumbers, if_neg hab, if_pos hzero, if_neg (ne_of_gt hd)]
      refine ⟨⟨fun h => absurd h (by rw [hres]; norm_num), fun h => absurd h hab⟩,
        fun _ _ => hres, fun _ h => absurd hzero (ne_of_lt h).symm,
        fun _ h => absurd hzero (ne_of_gt h).symm⟩
    · have havg := ne_of_gt hpos
      have hpd : 0 < (|a - b| / ((a + b) / 2)) * 100 := by
        have := div_pos hd hpos
        nlinarith
      have hlt : compareNumbers a b < 100 := by
        rw [key havg]
        exact max_lt (by norm_num) (by linarith)
      have hge : 0 ≤ compareNumbers a b := by
        rw [key havg]; exact le_max_left 0 _
      have hzero_iff : compareNumbers a b = 0 ↔ (a + b) / 2 ≤ |a - b| := by
        rw [key havg, max_eq_left_iff]
        constructor
        · intro h
          have h1 : (1 : ℚ) ≤ |a - b| / ((a + b) / 2) := by nlinarith
          exact (one_le_div hpos).mp h1
        · intro h
          have h1 : (1 : ℚ) ≤ |a - b| / ((a + b) / 2) := (one_le_div hpos).mpr h
          nlinarith
      exact ⟨⟨fun h => absurd h (by linarith), fun h => absurd h hab⟩,
        fun _ h => absurd h havg, fun _ _ => ⟨hge, hlt, hzero_iff⟩,
        fun _ h => absurd hpos (by linarith)⟩

/-- Claim C5 fails as stated: `compareNumbers 3 9 = 0` although neither
side is zero, and `compareNumbers (-10) (-20)` exceeds 100, so the result
is neither always in `[0,100)` nor 0 only in the zero-ish/non-zero-ish
case. -/
theorem compareNumbers_claim_false :
    (compareNumbers 3 9 = 0 ∧ ¬((3 : ℚ) = 0 ∨ (9 : ℚ) = 0))
    ∧ 100 < compareNumbers (-10) (-20) := by
  refine ⟨⟨?_, by norm_num⟩, ?_⟩
  · have h1 : |(3 : ℚ) - 9| = 6 := by rw [abs_of_nonpos] <;> norm_num
    norm_num [compareNumbers, h1]
  · have h1 : |(-10 : ℚ) - (-20)| = 10 := by rw [abs_of_nonneg] <;> norm_num
    norm_num [compareNumbers, h1]

theorem compareNumbers_characterization_witness :
    0 ≤ compareNumbers 95 105 ∧ compareNumbers 95 105 < 100 := by
  have h := ((compareNumbers_characterization 95 105).2.2.1
    (by norm_num) (by norm_num))
  exact ⟨h.1, h.2.1⟩

/-- Claim C4 fails as stated: on attribute maps pairing the key `"a"` with
the numbers `-10` and `-20`, the fuzzy scorer's aggregate score is
`166.67`, outside `[0,100]`. -/
theorem calculateMetadataSimilarity_score_gt_100 :
    100 < (calculateMetadataSimilarity (fun _ => none)
      [("a", .vNum (-10))] [("a", .vNum (-20))]
      { similarity := .fuzzy, strategy := .keepFirst }).score := by
  have h1 : |(-10 : ℚ) - (-20)| = 10 := by rw [abs_of_nonneg] <;> norm_num
  have h2 : compareNumbers (-10) (-20) = 500/3 := by
    norm_num [compareNumbers, h1]
  have hs : (calculateMetadataSimilarity (fun _ => none)
      [("a", .vNum (-10))] [("a", .vNum (-20))]
      { similarity := .fuzzy, strategy := .keepFirst }).score
      = round2 ((compareNumbers (-10) (-20) + 0) / 1) := rfl
  rw [hs, h2]
  unfold round2 jsRound
  rw [show (((500:ℚ)/3 + 0) / 1 * 100 + 1/2) = 100003/6 by norm_num]
  rw [show (⌊(100003/6 : ℚ)⌋ = 16667) from by rw [Int.floor_eq_iff] <;> norm_num]
  norm_num


lemma jsRound_bounds {q : ℚ} {a b : ℤ} (h1 : (a : ℚ) ≤ q) (h2 : q ≤ (b : ℚ)) :
    a ≤ jsRound q ∧ jsRound q ≤ b := by
  unfold jsRound
  constructor
  · exact Int.le_floor.mpr (by push_cast; linarith)
  · have := Int.floor_lt.mpr (show q + 1/2 < ((b + 1 : ℤ) : ℚ) by push_cast; linarith)
    omega

lemma round2_bounds {q : ℚ} (h1 : 0 ≤ q) (h2 : q ≤ 100) :
    0 ≤ round2 q ∧ round2 q ≤ 100 := by
  have hb := jsRound_bounds (a := 0) (b := 10000) (q := q * 100)
    (by push_cast; linarith) (by push_cast; linarith)
  unfold round2
  constructor
  · apply div_nonneg _ (by norm_num)
    exact_mod_cast hb.1
  · rw [div_le_iff₀ (by norm_num)]
    exact_mod_cast hb.2

lemma levenshteinDistance_le (n : Nat) :
    ∀ s t : List Char, s.length + t.length ≤ n →
      levenshteinDistance s t ≤ max s.length t.length := by
  induction n with
  | zero =>
    intro s t h
    cases s with
    | nil => simp [levenshteinDistance]
    | cons a s => simp at h
  | succ n ih =>
    intro s t h
    cases s with
    | nil => simp [levenshteinDistance]
    | cons a s =>
      cases t with
      | nil => simp [levenshteinDistance]
      | cons b t =>
        have hst : levenshteinDistance s t ≤ max s.length t.length := by
          apply ih; simp at h ⊢; omega
        have hdef : levenshteinDistance (a :: s) (b :: t)
            = min (min (levenshteinDistance (a :: s) t + 1)
                (levenshteinDistance s (b :: t) + 1))
              (levenshteinDistance s t + (if a = b then 0 else 1)) := by
          simp only [levenshteinDistance]
        calc levenshteinDistance (a :: s) (b :: t)
            ≤ levenshteinDistance s t + (if a = b then 0 else 1) := by
              rw [hdef]; exact min_le_right _ _
          _ ≤ max s.length t.length + 1 := by
              have : (if a = b then 0 else 1) ≤ 1 := by split <;> omega
              omega
          _ ≤ max (a :: s).length (b :: t).length := by
              simp only [List.length_cons]; omega

lemma levRatio_bounds {L d : Nat} (hL : L ≠ 0) (hd : d ≤ L) :
    0 ≤ ((jsRound ((((L : ℚ) - (d : ℚ)) / (L : ℚ)) * 100) : ℤ) : ℚ)
    ∧ ((jsRound ((((L : ℚ) - (d : ℚ)) / (L : ℚ)) * 100) : ℤ) : ℚ) ≤ 100 := by
  have hLq : (0 : ℚ) < (L : ℚ) := by exact_mod_cast Nat.pos_of_ne_zero hL
  have hdq : (d : ℚ) ≤ (L : ℚ) := by exact_mod_cast hd
  have h0 : (0 : ℚ) ≤ (((L : ℚ) - (d : ℚ)) / (L : ℚ)) * 100 := by
    apply mul_nonneg _ (by norm_num)
    apply div_nonneg (by linarith) (le_of_lt hLq)
  have h1 : (((L : ℚ) - (d : ℚ)) / (L : ℚ)) * 100 ≤ 100 := by
    have : (((L : ℚ) - (d : ℚ)) / (L : ℚ)) ≤ 1 := by
      rw [div_le_one hLq]; linarith
    nlinarith
  have hb := jsRound_bounds (a := 0) (b := 100)
    (q := (((L : ℚ) - (d : ℚ)) / (L : ℚ)) * 100)
    (by push_cast; linarith) (by push_cast; linarith)
  exact ⟨by exact_mod_cast hb.1, by exact_mod_cast hb.2⟩

lemma calculateStringSimilarity_bounds (str1 str2 : String) :
    0 ≤ calculateStringSimilarity str1 str2
    ∧ calculateStringSimilarity str1 str2 ≤ 100 := by
  have hlev : levenshteinDistance str1.data str2.data ≤ max str1.length str2.length :=
    levenshteinDistance_le (str1.data.length + str2.data.length) _ _ le_rfl
  unfold calculateStringSimilarity
  by_cases hc : str1.length > str2.length
  · simp only [if_pos hc]
    by_cases h0 : str1.length = 0
    · simp [h0]
    · simp only [if_neg h0]
      exact levRatio_bounds h0 (by rw [Nat.max_eq_left (Nat.le_of_lt hc)] at hlev; exact hlev)
  · simp only [if_neg hc]
    by_cases h0 : str2.length = 0
    · simp [h0]
    · simp only [if_neg h0]
      exact levRatio_bounds h0 (by rw [Nat.max_eq_right (Nat.le_of_not_lt hc)] at hlev; exact hlev)

lemma compareStrings_bounds (jsDate : Value → Option Int) (str1 str2 fieldName : String) :
    0 ≤ compareStrings jsDate str1 str2 fieldName
    ∧ compareStrings jsDate str1 str2 fieldName ≤ 100 := by
  have hcs := calculateStringSimilarity_bounds str1 str2
  simp only [compareStrings]
  constructor
  · split_ifs <;> first | exact hcs.1 | norm_num
  · split_ifs <;> first | exact hcs.2 | norm_num

lemma compareNumbers_bounds {a b : ℚ} (ha : 0 ≤ a) (hb : 0 ≤ b) :
    0 ≤ compareNumbers a b ∧ compareNumbers a b ≤ 100 := by
  unfold compareNumbers
  by_cases h1 : a = b
  · simp [h1]
  · simp only [if_neg h1]
    by_cases h2 : (a + b) / 2 = 0
    · simp only [if_pos h2]
      split_ifs <;> norm_num
    · simp only [if_neg h2]
      have havg : 0 < (a + b) / 2 := lt_of_le_of_ne (by positivity) (Ne.symm h2)
      have hpd : 0 ≤ (|a - b| / ((a + b) / 2)) * 100 := by positivity
      exact ⟨le_max_left _ _, max_le (by norm_num) (by linarith)⟩

lemma compareObjects_bounds (o1 o2 : String) :
    0 ≤ compareObjects o1 o2 ∧ compareObjects o1 o2 ≤ 100 := by
  unfold compareObjects
  split_ifs <;> constructor <;> norm_num

/-- Every number value present is nonnegative. -/
def NumNonneg (v : Option Value) : Prop := ∀ q : ℚ, v = some (.vNum q) → 0 ≤ q

/-- Every number value of the attribute map is nonnegative. -/
def MetadataNumsNonneg (m : Metadata) : Prop :=
  ∀ p ∈ m, ∀ q : ℚ, p.2 = Value.vNum q → 0 ≤ q

lemma mlookup_numNonneg {m : Metadata} (h : MetadataNumsNonneg m) (k : String) :
    NumNonneg (mlookup m k) := by
  induction m with
  | nil => intro q hq; simp [mlookup] at hq
  | cons p rest ih =>
    intro q hq
    obtain ⟨k', v⟩ := p
    simp only [mlookup] at hq
    split_ifs at hq with hk
    · exact h (k', v) (List.mem_cons_self _ _) q (by injection hq)
    · exact ih (fun p hp => h p (List.mem_cons_of_mem _ hp)) q hq

lemma compareFieldValues_bounds (jsDate : Value → Option Int)
    {v1 v2 : Option Value} (h1 : NumNonneg v1) (h2 : NumNonneg v2) (fieldName : String) :
    0 ≤ compareFieldValues jsDate v1 v2 fieldName
    ∧ compareFieldValues jsDate v1 v2 fieldName ≤ 100 := by
  unfold compareFieldValues
  by_cases he : v1 = v2
  · rw [if_pos he]
    exact ⟨by norm_num, by norm_num⟩
  · rw [if_neg he]
    by_cases hn : v1 = none ∨ v2 = none ∨ v1 = some .vNull ∨ v2 = some .vNull
    · rw [if_pos hn]
      exact ⟨by norm_num, by norm_num⟩
    · rw [if_neg hn]
      rcases v1 with _ | v
      · exact absurd (Or.inl rfl) hn
      · rcases v2 with _ | w
        · exact absurd (Or.inr (Or.inl rfl)) hn
        · have hzero : (0 : ℚ) ≤ 0 ∧ (0 : ℚ) ≤ 100 := by norm_num
          cases v with
          | vNull => exact absurd (Or.inr (Or.inr (Or.inl rfl))) hn
          | vBool b =>
            cases w with
            | vNull => exact absurd (Or.inr (Or.inr (Or.inr rfl))) hn
            | vBool c => exact hzero
            | vNum n2 => exact hzero
            | vStr s2 => exact hzero
            | vObj o2 => exact hzero
          | vNum n1 =>
            cases w with
            | vNull => exact absurd (Or.inr (Or.inr (Or.inr rfl))) hn
            | vBool c => exact hzero
            | vNum n2 => exact compareNumbers_bounds (h1 n1 rfl) (h2 n2 rfl)
            | vStr s2 => exact hzero
            | vObj o2 => exact hzero
          | vStr s1 =>
            cases w with
            | vNull => exact absurd (Or.inr (Or.inr (Or.inr rfl))) hn
            | vBool c => exact hzero
            | vNum n2 => exact hzero
            | vStr s2 => exact compareStrings_bounds jsDate s1 s2 fieldName
            | vObj o2 => exact hzero
          | vObj o1 =>
            cases w with
            | vNull => exact absurd (Or.inr (Or.inr (Or.inr rfl))) hn
            | vBool c => exact hzero
            | vNum n2 => exact hzero
            | vStr s2 => exact hzero
            | vObj o2 => exact compareObjects_bounds o1 o2

/-- Claim C4 (amended): for attribute maps whose number values are all
nonnegative, the scorer's aggregate score lies in `[0,100]` (the original
claim fails for negative numbers, see the counterexample). -/
theorem calculateMetadataSimilarity_score_bounds (jsDate : Value → Option Int)
    (m1 m2 : Metadata) (o : DeduplicationOptions)
    (h1 : MetadataNumsNonneg m1) (h2 : MetadataNumsNonneg m2) :
    0 ≤ (calculateMetadataSimilarity jsDate m1 m2 o).score
    ∧ (calculateMetadataSimilarity jsDate m1 m2 o).score ≤ 100 := by
  by_cases hm : m1 = m2
  · simp only [calculateMetadataSimilarity, if_pos hm]
    exact ⟨by norm_num, by norm_num⟩
  · by_cases hx : o.similarity = SimilarityMode.exact
    · simp only [calculateMetadataSimilarity, if_neg hm, if_pos hx]
      exact ⟨by norm_num, by norm_num⟩
    · by_cases hk : keysToCompare m1 m2 o = []
      · simp only [calculateMetadataSimilarity, if_neg hm, if_neg hx, if_pos hk]
        exact ⟨by norm_num, by norm_num⟩
      · simp only [calculateMetadataSimilarity, if_neg hm, if_neg hx, if_neg hk]
        set keys := keysToCompare m1 m2 o with hkeysdef
        set f := fun k =>
          compareFieldValues jsDate (mlookup m1 k) (mlookup m2 k) k with hfdef
        have hlen : 0 < ((keys.length : ℕ) : ℚ) := by
          have : keys ≠ [] := hk
          have : 0 < keys.length := List.length_pos.mpr this
          exact_mod_cast this
        have hmem : ∀ x ∈ keys.map f, 0 ≤ x ∧ x ≤ 100 := by
          intro x hx'
          obtain ⟨k, _, rfl⟩ := List.mem_map.mp hx'
          exact compareFieldValues_bounds jsDate
            (mlookup_numNonneg h1 k) (mlookup_numNonneg h2 k) k
        have hsum0 : 0 ≤ (keys.map f).sum :=
          List.sum_nonneg fun x hx' => (hmem x hx').1
        have hsum1 : (keys.map f).sum ≤ (keys.length : ℚ) * 100 := by
          have := List.sum_le_card_nsmul (keys.map f) 100 fun x hx' => (hmem x hx').2
          rw [List.length_map] at this
          simpa [nsmul_eq_mul] using this
        have havg0 : 0 ≤ (keys.map f).sum / ((keys.length : ℕ) : ℚ) :=
          div_nonneg hsum0 (le_of_lt hlen)
        have havg1 : (keys.map f).sum / ((keys.length : ℕ) : ℚ) ≤ 100 := by
          rw [div_le_iff₀ hlen]
          linarith
        exact round2_bounds havg0 havg1

theorem calculateMetadataSimilarity_score_bounds_witness :
    0 ≤ (calculateMetadataSimilarity (fun _ => none)
      [("a", .vNum 1)] [("a", .vNum 2)]
      { similarity := .fuzzy, strategy := .keepFirst }).score
    ∧ (calculateMetadataSimilarity (fun _ => none)
      [("a", .vNum 1)] [("a", .vNum 2)]
      { similarity := .fuzzy, strategy := .keepFirst }).score ≤ 100 :=
  calculateMetadataSimilarity_score_bounds (fun _ => none) _ _ _
    (by
      intro p hp q hq
      rw [List.mem_singleton] at hp
      subst hp
      have hv : Value.vNum 1 = Value.vNum q := hq
      injection hv with h
      rw [← h]; norm_num)
    (by
      intro p hp q hq
      rw [List.mem_singleton] at hp
      subst hp
      have hv : Value.vNum 2 = Value.vNum q := hq
      injection hv with h
      rw [← h]; norm_num)

lemma newestScan_lt (jsDate : Value → Option Int) (N : Nat) :
    ∀ (docs : List GroupDoc) (idx : Nat) (best : Int) (keep : Nat),
      keep < N → idx + docs.length ≤ N →
      (newestScan jsDate docs idx best keep).2 < N := by
  intro docs
  induction docs with
  | nil =>
    intro idx best keep h1 _
    simpa [newestScan] using h1
  | cons d ds ih =>
    intro idx best keep h1 h2
    simp only [List.length_cons] at h2
    simp only [newestScan]
    cases hx : docTime jsDate d with
    | none => exact ih (idx + 1) best keep h1 (by omega)
    | some t =>
      by_cases hlt : best < t
      · simp only [if_pos hlt]
        exact ih (idx + 1) t idx (by omega) (by omega)
      · simp only [if_neg hlt]
        exact ih (idx + 1) best keep h1 (by omega)

lemma selectDocumentsForDeletion_spec (jsDate : Value → Option Int)
    (g : DuplicateGroup) (d : GroupDoc) (ds : List GroupDoc)
    (h : g.documents = d :: ds) :
    ∃ sel k, selectDocumentsForDeletion jsDate g = some sel
      ∧ k < g.documents.length
      ∧ sel.toKeep = (g.documents.getD k d).id
      ∧ sel.toDelete
          = (g.documents.enum.filter fun p => p.1 ≠ k).map fun p => p.2.id := by
  simp only [selectDocumentsForDeletion, h]
  by_cases he : ds.isEmpty
  · rw [if_pos he]
    rw [List.isEmpty_iff] at he
    subst he
    refine ⟨⟨d.id, []⟩, 0, rfl, by simp, rfl, ?_⟩
    simp [List.enum]
  · rw [if_neg he]
    refine ⟨_, _, rfl, ?_, rfl, rfl⟩
    cases hact : g.recommendedAction with
    | keepNewest =>
      simp only [hact, List.length_cons]
      exact newestScan_lt jsDate (d :: ds).length (d :: ds) 0 0 0 (by simp) (by simp)
    | keepFirst => simp [hact]
    | manualReview => simp [hact]

lemma selectDocumentsForDeletion_keptId (jsDate : Value → Option Int)
    (g : DuplicateGroup) (sel : Selection)
    (hsel : selectDocumentsForDeletion jsDate g = some sel) :
    sel.toKeep ∈ g.documents.map GroupDoc.id
    ∧ ((g.documents.map GroupDoc.id).Nodup → sel.toKeep ∉ sel.toDelete) := by
  have hne : g.documents ≠ [] := by
    intro h0
    rw [selectDocumentsForDeletion, h0] at hsel
    exact absurd hsel (by simp)
  obtain ⟨d, ds, hd⟩ := List.exists_cons_of_ne_nil hne
  obtain ⟨sel', k, hs, hk, hkeep, hdel⟩ :=
    selectDocumentsForDeletion_spec jsDate g d ds hd
  rw [hsel] at hs
  injection hs with hs
  subst hs
  rw [List.getD_eq_get _ _ hk] at hkeep
  constructor
  · rw [hkeep]
    exact List.mem_map.mpr ⟨_, List.get_mem _ _ _, rfl⟩
  · intro hnd hmem
    rw [hdel] at hmem
    obtain ⟨⟨i, x⟩, hmemf, hx⟩ := List.mem_map.mp hmem
    obtain ⟨hmem_enum, hi_ne⟩ := List.mem_filter.mp hmemf
    have hi_ne2 : i ≠ k := by simpa using hi_ne
    have hget2 := List.mem_enum_iff_get?.mp hmem_enum
    obtain ⟨hi, hget⟩ := List.get?_eq_some.mp hget2
    have hideq : (g.documents.get ⟨i, hi⟩).id = (g.documents.get ⟨k, hk⟩).id := by
      rw [hget]
      rw [hkeep] at hx
      exact hx
    have hmapeq :
        (g.documents.map GroupDoc.id).get ⟨i, by simpa using hi⟩
          = (g.documents.map GroupDoc.id).get ⟨k, by simpa using hk⟩ := by
      rw [List.get_map, List.get_map]
      exact hideq
    have := (hnd.get_inj_iff).mp hmapeq
    exact hi_ne2 (by simpa using congrArg Fin.val this)

lemma deleteLoop_audit_src (store : List String → StoreOutcome)
    (jsDate : Value → Option Int) :
    ∀ (groups : List DuplicateGroup) (e : AuditEntry),
      e ∈ (deleteLoop store jsDate groups).1 →
      ∃ g ∈ groups, ∃ sel, selectDocumentsForDeletion jsDate g = some sel
        ∧ e.groupId = g.id ∧ e.keptId = sel.toKeep ∧ e.deletedIds = sel.toDelete := by
  intro groups
  induction groups with
  | nil => intro e he; simp [deleteLoop] at he
  | cons g gs ih =>
    intro e he
    simp only [deleteLoop, List.mem_append] at he
    rcases he with he | he
    · cases hsel : selectDocumentsForDeletion jsDate g with
      | none =>
        simp only [processGroup, hsel] at he
        simp at he
      | some sel =>
        simp only [processGroup, hsel] at he
        by_cases hemp : sel.toDelete.isEmpty
        · rw [if_pos hemp] at he
          simp at he
        · rw [if_neg hemp] at he
          cases hst : store sel.toDelete with
          | ok =>
            simp only [hst] at he
            simp only [Option.toList_some, List.mem_singleton] at he
            subst he
            exact ⟨g, List.mem_cons_self _ _, sel, hsel, rfl, rfl, rfl⟩
          | fail =>
            simp only [hst] at he
            simp at he
          | thrown m =>
            simp only [hst] at he
            simp at he
    · obtain ⟨g2, hg2, rest⟩ := ih e he
      exact ⟨g2, List.mem_cons_of_mem _ hg2, rest⟩

/-- Claim C3 (amended): every audit entry produced by the Deletion
Executor comes from a group of the submitted batch whose id it records;
its kept id is the id of one of that group's members, and — provided the
group's member ids are pairwise distinct — the kept id does not occur in
the entry's `deletedIds`.  (Without the distinctness proviso the claim
fails, see the counterexample.) -/
theorem deleteDuplicates_audit_keptId (store : List String → StoreOutcome)
    (jsDate : Value → Option Int) (groups : List DuplicateGroup) (e : AuditEntry)
    (he : e ∈ (deleteDuplicates store jsDate groups).1.auditTrail) :
    ∃ g ∈ groups, e.groupId = g.id ∧ e.keptId ∈ g.documents.map GroupDoc.id
      ∧ ((g.documents.map GroupDoc.id).Nodup → e.keptId ∉ e.deletedIds) := by
  obtain ⟨g, hg, sel, hsel, hgid, hkeep, hdel⟩ := deleteLoop_audit_src store jsDate groups e he
  have hk := selectDocumentsForDeletion_keptId jsDate g sel hsel
  refine ⟨g, hg, hgid, ?_, ?_⟩
  · rw [hkeep]; exact hk.1
  · intro hnd
    rw [hkeep, hdel]
    exact hk.2 hnd

/-- Claim C3 fails as stated: a submitted group whose two members share
the id `"a"` produces an audit entry whose kept id `"a"` also occurs in
its `deletedIds`. -/
theorem deleteDuplicates_keptId_claim_false :
    (deleteDuplicates (fun _ => .ok) (fun _ => none)
        [⟨"g1", 100, [⟨"a", [], none⟩, ⟨"a", [], none⟩], .keepFirst, "dup", []⟩]).1.auditTrail
      = [⟨"g1", ["a"], "a", "dup", ""⟩]
    ∧ "a" ∈ ["a"] := by
  constructor
  · rfl
  · exact List.mem_singleton.mpr rfl

theorem deleteDuplicates_audit_keptId_witness :
    ∃ g ∈ [(⟨"g0", 100, [⟨"a", [], none⟩, ⟨"b", [], none⟩], .keepFirst, "dup", []⟩ : DuplicateGroup)],
      (⟨"g0", ["b"], "a", "dup", ""⟩ : AuditEntry).groupId = g.id
      ∧ (⟨"g0", ["b"], "a", "dup", ""⟩ : AuditEntry).keptId ∈ g.documents.map GroupDoc.id
      ∧ ((g.documents.map GroupDoc.id).Nodup →
          (⟨"g0", ["b"], "a", "dup", ""⟩ : AuditEntry).keptId
            ∉ (⟨"g0", ["b"], "a", "dup", ""⟩ : AuditEntry).deletedIds) :=
  deleteDuplicates_audit_keptId (fun _ => .ok) (fun _ => none)
    [⟨"g0", 100, [⟨"a", [], none⟩, ⟨"b", [], none⟩], .keepFirst, "dup", []⟩]
    ⟨"g0", ["b"], "a", "dup", ""⟩ (by decide)

/-- Claim C7: the Deletion Executor isolates failures per group: the head
group's errors and audit entries are computed independently and every
later group is still processed (the tail's errors, audit entries and
deleted count are all preserved in the aggregate); `success` is true iff
the error list is empty; and when the head group's store call reports
failure or throws, the executor records exactly one error string naming
that group's id and emits no audit entry for it. -/
theorem deleteDuplicates_per_group_errors (store : List String → StoreOutcome)
    (jsDate : Value → Option Int) (g : DuplicateGroup) (gs : List DuplicateGroup) :
    ((deleteDuplicates store jsDate (g :: gs)).1.errors
        = (deleteDuplicates store jsDate [g]).1.errors
          ++ (deleteDuplicates store jsDate gs).1.errors
      ∧ (deleteDuplicates store jsDate (g :: gs)).1.auditTrail
        = (deleteDuplicates store jsDate [g]).1.auditTrail
          ++ (deleteDuplicates store jsDate gs).1.auditTrail
      ∧ (deleteDuplicates store jsDate (g :: gs)).1.deletedDocuments
        = (deleteDuplicates store jsDate [g]).1.deletedDocuments
          + (deleteDuplicates store jsDate gs).1.deletedDocuments)
    ∧ ((deleteDuplicates store jsDate (g :: gs)).1.success = true
        ↔ (deleteDuplicates store jsDate (g :: gs)).1.errors = [])
    ∧ (∀ sel, selectDocumentsForDeletion jsDate g = some sel → sel.toDelete ≠ [] →
        (store sel.toDelete = .fail →
          (deleteDuplicates store jsDate [g]).1.errors
            = ["Failed to delete group " ++ g.id ++ ": Delete operation failed"]
          ∧ (deleteDuplicates store jsDate [g]).1.auditTrail = [])
        ∧ (∀ msg, store sel.toDelete = .thrown msg →
          (deleteDuplicates store jsDate [g]).1.errors
            = ["Error processing group " ++ g.id ++ ": " ++ msg]
          ∧ (deleteDuplicates store jsDate [g]).1.auditTrail = [])) := by
  refine ⟨⟨?_, ?_, ?_⟩, ?_, ?_⟩
  · simp [deleteDuplicates, deleteLoop]
  · simp [deleteDuplicates, deleteLoop]
  · simp [deleteDuplicates, deleteLoop]
  · simp [deleteDuplicates, List.isEmpty_iff]
  · intro sel hsel hne
    have hemp : sel.toDelete.isEmpty = false := by
      rw [List.isEmpty_eq_false_iff_exists_mem]
      cases hc : sel.toDelete with
      | nil => exact absurd hc hne
      | cons a l => exact ⟨a, by exact List.mem_cons_self _ _⟩
    constructor
    · intro hst
      constructor <;>
        simp [deleteDuplicates, deleteLoop, processGroup, hsel, hemp, hst]
    · intro msg hst
      constructor <;>
        simp [deleteDuplicates, deleteLoop, processGroup, hsel, hemp, hst]

theorem deleteDuplicates_per_group_errors_witness :
    (deleteDuplicates (fun _ => .fail) (fun _ => none)
        [(⟨"g0", 100, [⟨"a", [], none⟩, ⟨"b", [], none⟩], .keepFirst, "dup", []⟩ : DuplicateGroup)]).1.errors
      = ["Failed to delete group " ++ "g0" ++ ": Delete operation failed"]
    ∧ (deleteDuplicates (fun _ => .fail) (fun _ => none)
        [(⟨"g0", 100, [⟨"a", [], none⟩, ⟨"b", [], none⟩], .keepFirst, "dup", []⟩ : DuplicateGroup)]).1.auditTrail
      = [] :=
  ((deleteDuplicates_per_group_errors (fun _ => .fail) (fun _ => none)
      ⟨"g0", 100, [⟨"a", [], none⟩, ⟨"b", [], none⟩], .keepFirst, "dup", []⟩ []).2.2
    ⟨"a", ["b"]⟩ (by decide) (by decide)).1 rfl

/-- The running maximum the keep-newest loop computes over the parsed
member timestamps, starting from `best`. -/
def runningMax (jsDate : Value → Option Int) (best : Int) : List GroupDoc → Int
  | [] => best
  | d :: ds =>
    runningMax jsDate
      (match docTime jsDate d with
       | some t => max best t
       | none => best) ds

lemma le_runningMax (jsDate : Value → Option Int) :
    ∀ (docs : List GroupDoc) (best : Int), best ≤ runningMax jsDate best docs := by
  intro docs
  induction docs with
  | nil => intro best; simp [runningMax]
  | cons d ds ih =>
    intro best
    simp only [runningMax]
    cases ht : docTime jsDate d with
    | none => exact ih best
    | some t => exact le_trans (le_max_left best t) (ih (max best t))

lemma newestScan_fst (jsDate : Value → Option Int) :
    ∀ (docs : List GroupDoc) (idx : Nat) (best : Int) (keep : Nat),
      (newestScan jsDate docs idx best keep).1 = runningMax jsDate best docs := by
  intro docs
  induction docs with
  | nil => intros; rfl
  | cons d ds ih =>
    intro idx best keep
    simp only [newestScan, runningMax]
    cases ht : docTime jsDate d with
    | none => exact ih _ _ _
    | some t =>
      dsimp only
      by_cases hlt : best < t
      · rw [if_pos hlt, ih, max_eq_right (le_of_lt hlt)]
      · rw [if_neg hlt, ih, max_eq_left (le_of_not_lt hlt)]

lemma newestScan_snd (jsDate : Value → Option Int) :
    ∀ (docs : List GroupDoc) (idx : Nat) (best : Int) (keep : Nat) (M : Int),
      M = runningMax jsDate best docs →
      (newestScan jsDate docs idx best keep).2
        = if best < M
          then idx + (docs.map (docTime jsDate)).findIdx (fun t => t = some M)
          else keep := by
  intro docs
  induction docs with
  | nil =>
    intro idx best keep M hM
    subst hM
    simp [newestScan, runningMax]
  | cons d ds ih =>
    intro idx best keep M hM
    simp only [runningMax] at hM
    simp only [newestScan, List.map_cons]
    cases ht : docTime jsDate d with
    | none =>
      rw [ht] at hM
      dsimp only at hM
      rw [ih (idx + 1) best keep M hM]
      by_cases hMlt : best < M
      · rw [if_pos hMlt, if_pos hMlt, List.findIdx_cons]
        have hfalse : (decide ((none : Option Int) = some M)) = false := by simp
        rw [hfalse, cond_false]
        omega
      · rw [if_neg hMlt, if_neg hMlt]
    | some t =>
      rw [ht] at hM
      dsimp only at hM
      dsimp only
      by_cases hlt : best < t
      · rw [if_pos hlt]
        rw [max_eq_right (le_of_lt hlt)] at hM
        rw [ih (idx + 1) t idx M hM]
        have hle : t ≤ M := hM ▸ le_runningMax jsDate ds t
        have hM2 : best < M := lt_of_lt_of_le hlt hle
        rw [if_pos hM2, List.findIdx_cons]
        by_cases hMt : t < M
        · rw [if_pos hMt]
          have hfalse : (decide ((some t : Option Int) = some M)) = false := by
            simp
            omega
          rw [hfalse, cond_false]
          omega
        · have heq : t = M := le_antisymm hle (le_of_not_lt hMt)
          subst heq
          rw [if_neg hMt]
          simp
      · rw [if_neg hlt]
        rw [max_eq_left (le_of_not_lt hlt)] at hM
        rw [ih (idx + 1) best keep M hM]
        by_cases hM2 : best < M
        · rw [if_pos hM2, if_pos hM2, List.findIdx_cons]
          have hfalse : (decide ((some t : Option Int) = some M)) = false := by
            simp
            omega
          rw [hfalse, cond_false]
          omega
        · rw [if_neg hM2, if_neg hM2]

/-- The index the keep-newest selection ends at: the first index whose
parsed timestamp attains the running maximum, provided that maximum is
positive (i.e. after the epoch, since `newestTime` starts at 0); index 0
otherwise. -/
def keepNewestIdx (jsDate : Value → Option Int) (docs : List GroupDoc) : Nat :=
  if 0 < runningMax jsDate 0 docs
  then (docs.map (docTime jsDate)).findIdx (fun t => t = some (runningMax jsDate 0 docs))
  else 0

lemma keepNewestIdx_single (jsDate : Value → Option Int) (d : GroupDoc) :
    keepNewestIdx jsDate [d] = 0 := by
  unfold keepNewestIdx
  cases ht : docTime jsDate d with
  | none =>
    have : runningMax jsDate 0 [d] = 0 := by
      simp only [runningMax, ht]
    rw [this]
    simp
  | some t =>
    have hrm : runningMax jsDate 0 [d] = max 0 t := by
      simp only [runningMax, ht]
    rw [hrm]
    by_cases h0 : (0 : Int) < max 0 t
    · rw [if_pos h0]
      have hmt : max 0 t = t := by
        rcases le_or_lt 0 t with h | h
        · exact max_eq_right h
        · exfalso; rw [max_eq_left (le_of_lt h)] at h0; omega
      simp [List.findIdx_cons, ht, hmt]
    · rw [if_neg h0]

lemma getD_single {α : Type} (d : α) (k : Nat) : ([d] : List α).getD k d = d := by
  cases k with
  | zero => rfl
  | succ n => rfl

/-- Claim C6 (amended): for a keep-newest group, the selection keeps the
first member whose timestamp parses to the greatest parsed instant when
that greatest instant is positive (after the epoch), and keeps the first
member (index 0) when no member's timestamp parses to a positive instant
— in particular when none parses at all; every other member is deleted.
(As stated, the claim fails for pre-epoch timestamps, see the
counterexample.) -/
theorem selectDocuments_keepNewest_spec (jsDate : Value → Option Int)
    (g : DuplicateGroup) (d : GroupDoc) (ds : List GroupDoc)
    (hdocs : g.documents = d :: ds)
    (hact : g.recommendedAction = RecommendedAction.keepNewest) :
    ∃ sel, selectDocumentsForDeletion jsDate g = some sel
      ∧ sel.toKeep = ((d :: ds).getD (keepNewestIdx jsDate (d :: ds)) d).id
      ∧ sel.toDelete = ((d :: ds).enum.filter fun p =>
          p.1 ≠ keepNewestIdx jsDate (d :: ds)).map fun p => p.2.id := by
  simp only [selectDocumentsForDeletion, hdocs, hact]
  by_cases he : ds.isEmpty
  · rw [if_pos he]
    rw [List.isEmpty_iff] at he
    subst he
    refine ⟨⟨d.id, []⟩, rfl, ?_, ?_⟩
    · rw [getD_single]
    · rw [keepNewestIdx_single]
      simp [List.enum]
  · rw [if_neg he]
    have hscan : (newestScan jsDate (d :: ds) 0 0 0).2 = keepNewestIdx jsDate (d :: ds) := by
      rw [newestScan_snd jsDate (d :: ds) 0 0 0 (runningMax jsDate 0 (d :: ds)) rfl]
      unfold keepNewestIdx
      by_cases h0 : (0 : Int) < runningMax jsDate 0 (d :: ds)
      · rw [if_pos h0, if_pos h0, Nat.zero_add]
      · rw [if_neg h0, if_neg h0]
    exact ⟨_, rfl, by rw [hscan], by rw [hscan]⟩

/-- A concrete timestamp parser for witnesses: a number value parses to
its integer numerator, anything else is `NaN`. -/
def jsDateNum : Value → Option Int := fun v =>
  match v with
  | .vNum q => some q.num
  | _ => none

/-- Claim C6 fails as stated: in a keep-newest group whose second member
carries the only parseable timestamp, parsed to the pre-epoch instant
`-5`, the selection still keeps member 0 (ids: keeps `"a"`, deletes
`"b"`), because the newest-scan starts its running maximum at 0. -/
theorem selectDocuments_keepNewest_claim_false :
    docTime jsDateNum ⟨"b", [("lastModified", .vNum (-5))], none⟩ = some (-5)
    ∧ selectDocumentsForDeletion jsDateNum
        ⟨"g", 100, [⟨"a", [], none⟩, ⟨"b", [("lastModified", .vNum (-5))], none⟩],
          .keepNewest, "r", []⟩
      = some ⟨"a", ["b"]⟩ :=
  ⟨rfl, rfl⟩

theorem selectDocuments_keepNewest_spec_witness :
    ∃ sel, selectDocumentsForDeletion jsDateNum
        ⟨"g", 100, [⟨"a", [], none⟩, ⟨"b", [("lastModified", .vNum 5)], none⟩],
          .keepNewest, "r", []⟩
      = some sel
      ∧ sel.toKeep = (([⟨"a", [], none⟩, ⟨"b", [("lastModified", .vNum 5)], none⟩]
          : List GroupDoc).getD
            (keepNewestIdx jsDateNum
              [⟨"a", [], none⟩, ⟨"b", [("lastModified", .vNum 5)], none⟩])
            ⟨"a", [], none⟩).id
      ∧ sel.toDelete = (([⟨"a", [], none⟩, ⟨"b", [("lastModified", .vNum 5)], none⟩]
          : List GroupDoc).enum.filter fun p =>
            p.1 ≠ keepNewestIdx jsDateNum
              [⟨"a", [], none⟩, ⟨"b", [("lastModified", .vNum 5)], none⟩]).map
          fun p => p.2.id :=
  selectDocuments_keepNewest_spec jsDateNum
    ⟨"g", 100, [⟨"a", [], none⟩, ⟨"b", [("lastModified", .vNum 5)], none⟩],
      .keepNewest, "r", []⟩
    ⟨"a", [], none⟩ [⟨"b", [("lastModified", .vNum 5)], none⟩] rfl rfl

lemma foldl_add_map (f : DuplicateGroup → Nat) :
    ∀ (l : List DuplicateGroup) (n : Nat),
      l.foldl (fun s g => s + f g) n = n + (l.map f).sum := by
  intro l
  induction l with
  | nil => intro n; simp
  | cons g gs ih =>
    intro n
    simp only [List.foldl_cons, List.map_cons, List.sum_cons]
    rw [ih]
    omega

/-- Claim C9: the analysis records `potentialSavings.documentsToDelete`
equal to the sum over all emitted duplicate groups of (group size - 1). -/
theorem findMetadataDuplicates_documentsToDelete (jsDate : Value → Option Int)
    (documents : List Document) (o : DeduplicationOptions) (a : DuplicationAnalysis)
    (h : findMetadataDuplicates jsDate documents o = .ok a) :
    a.potentialSavings.documentsToDelete
      = (a.duplicateGroups.map fun g => g.documents.length - 1).sum := by
  unfold findMetadataDuplicates at h
  by_cases hd : documents = []
  · rw [if_pos hd] at h
    exact absurd h (by simp)
  · rw [if_neg hd] at h
    injection h with h
    subst h
    dsimp only
    simpa using foldl_add_map (fun g => g.documents.length - 1)
      (identifyDuplicateGroups jsDate documents o) 0

theorem findMetadataDuplicates_documentsToDelete_witness :
    (⟨1, [], ⟨0, "~0 KB"⟩, ⟨0, 0, 1⟩⟩ : DuplicationAnalysis).potentialSavings.documentsToDelete
      = ((⟨1, [], ⟨0, "~0 KB"⟩, ⟨0, 0, 1⟩⟩ : DuplicationAnalysis).duplicateGroups.map
          fun g => g.documents.length - 1).sum :=
  findMetadataDuplicates_documentsToDelete jsDateNum [⟨"d1", [("k", .vNum 1)]⟩]
    { similarity := .fuzzy, strategy := .keepFirst } _
    (by
      have hid : identifyDuplicateGroups jsDateNum [⟨"d1", [("k", .vNum 1)]⟩]
          { similarity := .fuzzy, strategy := .keepFirst } = [] := by
        unfold identifyDuplicateGroups sortGroups
        rw [show outerLoop jsDateNum
            { similarity := .fuzzy, strategy := .keepFirst }
            [⟨"d1", [("k", .vNum 1)]⟩] [] 0 = [] from rfl]
        exact List.mergeSort_nil
      simp only [findMetadataDuplicates, hid]
      rfl)

lemma innerScan_processed (jsDate : Value → Option Int) (o : DeduplicationOptions)
    (anchor : Document) :
    ∀ (rest : List Document) (processed : List String),
      (innerScan jsDate o anchor rest processed).2
        = ((innerScan jsDate o anchor rest processed).1.map Document.id).reverse
          ++ processed := by
  intro rest
  induction rest with
  | nil => intro processed; simp [innerScan]
  | cons d ds ih =>
    intro processed
    simp only [innerScan]
    by_cases h1 : d.id ∈ processed
    · rw [if_pos h1]
      exact ih processed
    · rw [if_neg h1]
      by_cases h2 : (calculateMetadataSimilarity jsDate anchor.metadata d.metadata o).score
          ≥ effectiveThreshold o
      · rw [if_pos h2]
        dsimp only
        rw [ih (d.id :: processed)]
        simp
      · rw [if_neg h2]
        exact ih processed

lemma innerScan_members (jsDate : Value → Option Int) (o : DeduplicationOptions)
    (anchor : Document) :
    ∀ (rest : List Document) (processed : List String),
      (∀ m ∈ (innerScan jsDate o anchor rest processed).1, m.id ∉ processed)
      ∧ ((innerScan jsDate o anchor rest processed).1.map Document.id).Nodup := by
  intro rest
  induction rest with
  | nil => intro processed; simp [innerScan]
  | cons d ds ih =>
    intro processed
    simp only [innerScan]
    by_cases h1 : d.id ∈ processed
    · rw [if_pos h1]
      exact ih processed
    · rw [if_neg h1]
      by_cases h2 : (calculateMetadataSimilarity jsDate anchor.metadata d.metadata o).score
          ≥ effectiveThreshold o
      · rw [if_pos h2]
        dsimp only
        obtain ⟨hmem, hnd⟩ := ih (d.id :: processed)
        constructor
        · intro m hm
          rcases List.mem_cons.mp hm with hm | hm
          · subst hm; exact h1
          · intro hp
            exact hmem m hm (List.mem_cons_of_mem _ hp)
        · rw [List.map_cons, List.nodup_cons]
          refine ⟨?_, hnd⟩
          intro hd
          obtain ⟨m, hm, hmid⟩ := List.mem_map.mp hd
          exact hmem m hm (hmid ▸ List.mem_cons_self _ _)
      · rw [if_neg h2]
        exact ih processed

lemma toGroupDoc_ids (candidate : List Document) :
    (candidate.map toGroupDoc).map GroupDoc.id = candidate.map Document.id := by
  rw [List.map_map]
  rfl

lemma outerLoop_invariant (jsDate : Value → Option Int) (o : DeduplicationOptions) :
    ∀ (docs : List Document) (processed : List String) (n : Nat),
      (∀ g ∈ outerLoop jsDate o docs processed n, 2 ≤ g.documents.length)
      ∧ ((outerLoop jsDate o docs processed n).flatMap
          (fun g => g.documents.map GroupDoc.id)).Nodup
      ∧ (∀ x ∈ (outerLoop jsDate o docs processed n).flatMap
          (fun g => g.documents.map GroupDoc.id), x ∉ processed) := by
  intro docs
  induction docs with
  | nil => intro processed n; simp [outerLoop]
  | cons d ds ih =>
    intro processed n
    simp only [outerLoop]
    by_cases h1 : d.id ∈ processed
    · rw [if_pos h1]
      exact ih processed n
    · rw [if_neg h1]
      have hproc := innerScan_processed jsDate o d ds (d.id :: processed)
      have hmembers := innerScan_members jsDate o d ds (d.id :: processed)
      cases hr : (innerScan jsDate o d ds (d.id :: processed)).1 with
      | nil =>
        have hsub : ∀ x ∈ processed, x ∈ (innerScan jsDate o d ds (d.id :: processed)).2 := by
          intro x hx
          rw [hproc]
          exact List.mem_append_right _ (List.mem_cons_of_mem _ hx)
        obtain ⟨ha, hb, hc⟩ := ih (innerScan jsDate o d ds (d.id :: processed)).2 n
        exact ⟨ha, hb, fun x hx hpx => hc x hx (hsub x hpx)⟩
      | cons m ms =>
        rw [hr] at hproc hmembers
        obtain ⟨hmem, hnd⟩ := hmembers
        obtain ⟨ha, hb, hc⟩ := ih (innerScan jsDate o d ds (d.id :: processed)).2 (n + 1)
        have hgids : (mkGroup jsDate o n d m (d :: m :: ms)).documents.map GroupDoc.id
            = d.id :: (m :: ms).map Document.id := by
          show ((d :: m :: ms).map toGroupDoc).map GroupDoc.id = _
          rw [toGroupDoc_ids]
          rfl
        have hin_proc : ∀ x ∈ (mkGroup jsDate o n d m (d :: m :: ms)).documents.map GroupDoc.id,
            x ∈ (innerScan jsDate o d ds (d.id :: processed)).2 := by
          intro x hx
          rw [hgids] at hx
          rw [hproc]
          rcases List.mem_cons.mp hx with hx | hx
          · exact List.mem_append_right _ (hx ▸ List.mem_cons_self _ _)
          · exact List.mem_append_left _ (List.mem_reverse.mpr hx)
        refine ⟨?_, ?_, ?_⟩
        · intro g hg
          rcases List.mem_cons.mp hg with hg | hg
          · subst hg
            show 2 ≤ ((d :: m :: ms).map toGroupDoc).length
            simp
          · exact ha g hg
        · rw [List.flatMap_cons, List.nodup_append]
          refine ⟨?_, hb, ?_⟩
          · rw [hgids, List.nodup_cons]
            constructor
            · intro hd
              obtain ⟨m', hm', hmid⟩ := List.mem_map.mp hd
              exact hmem m' hm' (hmid ▸ List.mem_cons_self _ _)
            · exact hnd
          · intro x hx1 hx2
            exact hc x hx2 (hin_proc x hx1)
        · intro x hx
          rw [List.flatMap_cons, List.mem_append] at hx
          rcases hx with hx | hx
          · rw [hgids] at hx
            rcases List.mem_cons.mp hx with hx | hx
            · exact hx ▸ h1
            · obtain ⟨m', hm', hmid⟩ := List.mem_map.mp hx
              intro hp
              exact hmem m' hm' (hmid ▸ List.mem_cons_of_mem _ hp)
          · intro hp
            refine hc x hx ?_ |>.elim
            rw [hproc]
            exact List.mem_append_right _ (List.mem_cons_of_mem _ hp)

lemma bind_nodup_pairwise (f : DuplicateGroup → List String) :
    ∀ (l : List DuplicateGroup), (l.flatMap f).Nodup →
      l.Pairwise (fun g1 g2 => ∀ x ∈ f g1, x ∉ f g2) := by
  intro l
  induction l with
  | nil => intro _; exact List.Pairwise.nil
  | cons g gs ih =>
    intro h
    rw [List.flatMap_cons] at h
    obtain ⟨h1, h2, hdisj⟩ := List.nodup_append.mp h
    refine List.Pairwise.cons ?_ (ih h2)
    intro g2 hg2 x hx hx2
    exact hdisj hx (List.mem_flatMap.mpr ⟨g2, hg2, hx2⟩)

/-- Claim C2: for a batch with pairwise-distinct ids (in fact,
unconditionally), every emitted DuplicateGroup has at least 2 members, and
every record id appears in the member list of at most one emitted group
(the groups' member-id lists are pairwise disjoint). -/
theorem identifyDuplicateGroups_invariants (jsDate : Value → Option Int)
    (documents : List Document) (o : DeduplicationOptions)
    (hids : (documents.map Document.id).Nodup) :
    (∀ g ∈ identifyDuplicateGroups jsDate documents o, 2 ≤ g.documents.length)
    ∧ (identifyDuplicateGroups jsDate documents o).Pairwise
        (fun g1 g2 => ∀ x ∈ g1.documents.map GroupDoc.id,
          x ∉ g2.documents.map GroupDoc.id) := by
  have hbase := outerLoop_invariant jsDate o documents [] 0
  have hperm : (identifyDuplicateGroups jsDate documents o).Perm
      (outerLoop jsDate o documents [] 0) := List.mergeSort_perm _ _
  constructor
  · intro g hg
    exact hbase.1 g (hperm.mem_iff.mp hg)
  · have hpw := bind_nodup_pairwise (fun g => g.documents.map GroupDoc.id) _ hbase.2.1
    have hsymm : ∀ {x y : DuplicateGroup},
        (∀ a ∈ x.documents.map GroupDoc.id, a ∉ y.documents.map GroupDoc.id) →
        ∀ a ∈ y.documents.map GroupDoc.id, a ∉ x.documents.map GroupDoc.id := by
      intro x y h a ha hax
      exact h a hax ha
    exact (List.Perm.pairwise_iff hsymm hperm).mpr hpw

theorem identifyDuplicateGroups_invariants_witness :
    (∀ g ∈ identifyDuplicateGroups jsDateNum
        [⟨"a", [("k", .vNum 1)]⟩, ⟨"b", [("k", .vNum 1)]⟩]
        { similarity := .fuzzy, strategy := .keepFirst }, 2 ≤ g.documents.length)
    ∧ (identifyDuplicateGroups jsDateNum
        [⟨"a", [("k", .vNum 1)]⟩, ⟨"b", [("k", .vNum 1)]⟩]
        { similarity := .fuzzy, strategy := .keepFirst }).Pairwise
        (fun g1 g2 => ∀ x ∈ g1.documents.map GroupDoc.id,
          x ∉ g2.documents.map GroupDoc.id) :=
  identifyDuplicateGroups_invariants jsDateNum
    [⟨"a", [("k", .vNum 1)]⟩, ⟨"b", [("k", .vNum 1)]⟩]
    { similarity := .fuzzy, strategy := .keepFirst } (by decide)

/-- Claim C8: three records whose pairwise scores are 90 / 88.89 / 78.95
against threshold 85 land in a single group of all three: membership is
decided against the group's first (anchor) record, not transitively. -/
theorem identifyDuplicateGroups_nontransitive :
    ((calculateMetadataSimilarity jsDateNum [("size", .vNum 95)] [("size", .vNum 105)]
        { similarity := .fuzzy, strategy := .keepFirst }).score ≥ 85
      ∧ (calculateMetadataSimilarity jsDateNum [("size", .vNum 95)] [("size", .vNum 85)]
        { similarity := .fuzzy, strategy := .keepFirst }).score ≥ 85
      ∧ (calculateMetadataSimilarity jsDateNum [("size", .vNum 105)] [("size", .vNum 85)]
        { similarity := .fuzzy, strategy := .keepFirst }).score < 85)
    ∧ (identifyDuplicateGroups jsDateNum
        [⟨"r1", [("size", .vNum 95)]⟩, ⟨"r2", [("size", .vNum 105)]⟩,
          ⟨"r3", [("size", .vNum 85)]⟩]
        { similarity := .fuzzy, strategy := .keepFirst }).map
        (fun g => g.documents.map GroupDoc.id) = [["r1", "r2", "r3"]] := by
  have hc12 : compareNumbers 95 105 = 90 := by
    have habs : |(95 : ℚ) - 105| = 10 := by rw [abs_of_nonpos] <;> norm_num
    norm_num [compareNumbers, habs]
  have hc13 : compareNumbers 95 85 = 800/9 := by
    have habs : |(95 : ℚ) - 85| = 10 := by rw [abs_of_nonneg] <;> norm_num
    norm_num [compareNumbers, habs]
  have hc23 : compareNumbers 105 85 = 1500/19 := by
    have habs : |(105 : ℚ) - 85| = 20 := by rw [abs_of_nonneg] <;> norm_num
    norm_num [compareNumbers, habs]
  have hv12 : (calculateMetadataSimilarity jsDateNum [("size", .vNum 95)]
      [("size", .vNum 105)] { similarity := .fuzzy, strategy := .keepFirst }).score
      = 90 := by
    rw [show (calculateMetadataSimilarity jsDateNum [("size", .vNum 95)]
        [("size", .vNum 105)] { similarity := .fuzzy, strategy := .keepFirst }).score
        = round2 ((compareNumbers 95 105 + 0) / 1) from rfl]
    rw [hc12]
    unfold round2 jsRound
    rw [show (((90 : ℚ) + 0) / 1) * 100 + 1/2 = 18001/2 by norm_num]
    rw [show ⌊(18001/2 : ℚ)⌋ = 9000 from by rw [Int.floor_eq_iff] <;> norm_num]
    norm_num
  have hv13 : (calculateMetadataSimilarity jsDateNum [("size", .vNum 95)]
      [("size", .vNum 85)] { similarity := .fuzzy, strategy := .keepFirst }).score
      = 8889/100 := by
    rw [show (calculateMetadataSimilarity jsDateNum [("size", .vNum 95)]
        [("size", .vNum 85)] { similarity := .fuzzy, strategy := .keepFirst }).score
        = round2 ((compareNumbers 95 85 + 0) / 1) from rfl]
    rw [hc13]
    unfold round2 jsRound
    rw [show (((800/9 : ℚ) + 0) / 1) * 100 + 1/2 = 160009/18 by norm_num]
    rw [show ⌊(160009/18 : ℚ)⌋ = 8889 from by rw [Int.floor_eq_iff] <;> norm_num]
    norm_num
  have hv23 : (calculateMetadataSimilarity jsDateNum [("size", .vNum 105)]
      [("size", .vNum 85)] { similarity := .fuzzy, strategy := .keepFirst }).score
      = 7895/100 := by
    rw [show (calculateMetadataSimilarity jsDateNum [("size", .vNum 105)]
        [("size", .vNum 85)] { similarity := .fuzzy, strategy := .keepFirst }).score
        = round2 ((compareNumbers 105 85 + 0) / 1) from rfl]
    rw [hc23]
    unfold round2 jsRound
    rw [show (((1500/19 : ℚ) + 0) / 1) * 100 + 1/2 = 300019/38 by norm_num]
    rw [show ⌊(300019/38 : ℚ)⌋ = 7895 from by rw [Int.floor_eq_iff] <;> norm_num]
    norm_num
  refine ⟨⟨by rw [hv12]; norm_num, by rw [hv13]; norm_num, by rw [hv23]; norm_num⟩, ?_⟩
  have houter : outerLoop jsDateNum { similarity := .fuzzy, strategy := .keepFirst }
      [⟨"r1", [("size", .vNum 95)]⟩, ⟨"r2", [("size", .vNum 105)]⟩,
        ⟨"r3", [("size", .vNum 85)]⟩] [] 0
      = [mkGroup jsDateNum { similarity := .fuzzy, strategy := .keepFirst } 0
          ⟨"r1", [("size", .vNum 95)]⟩ ⟨"r2", [("size", .vNum 105)]⟩
          [⟨"r1", [("size", .vNum 95)]⟩, ⟨"r2", [("size", .vNum 105)]⟩,
            ⟨"r3", [("size", .vNum 85)]⟩]] := by
    simp only [outerLoop, innerScan, effectiveThreshold]
    norm_num +decide [hv12, hv13]
  simp only [identifyDuplicateGroups, sortGroups]
  rw [houter, List.mergeSort_singleton]
  rfl
